import Mathlib

/-!
Verification of the offline outbox and synchronization engine of the
LMIS mobile client (`src/lib/api.ts`: `ApiClient` together with the
`OfflineService` that the same module bundles).

The embedding is shallow: the persistent `localforage` queue store is a
list of records keyed by their `id` field, network and storage effects
are passed explicitly (an oracle decides the outcome of each replay
attempt, a boolean decides whether a storage write succeeds), and the
`async` drain loop of `OfflineService.syncPendingRequests` becomes a
fuel-indexed recursion whose fuel is proved sufficient.
-/

namespace Lmis

/-- Tag distinguishing queued API requests from queued image uploads
(the `type: "api" | "image"` field of `OfflineRequest`). -/
inductive RequestKind where
  | api
  | image
deriving Repr, DecidableEq

/-- One pending queued operation, mirroring the `OfflineRequest` interface of
`src/lib/api.ts` (the `fileData` payload is not needed by any claim and the
`body` is kept opaque as an optional string). -/
structure OfflineRequest where
  id : String
  endpoint : String
  method : String
  headers : List (String × String)
  body : Option String
  timestamp : Nat
  retries : Nat
  kind : RequestKind
deriving Repr, DecidableEq

/-- The `offline_queue` localforage store: records keyed by their `id`. -/
abbrev Store := List OfflineRequest

/-- Typed error raised by the request gateway (`ApiError` in
`src/lib/api.ts`): a message plus the HTTP status, with status `0` used for
transport-level failures. -/
structure ApiError where
  message : String
  status : Nat
deriving Repr, DecidableEq

/-- Storage failure while writing to a localforage store. -/
structure StorageError where
  message : String
deriving Repr, DecidableEq

/-- The `queueStore.getItem(id)` read: first record carrying the key. -/
def getItem (store : Store) (id : String) : Option OfflineRequest :=
  store.find? (fun r => r.id == id)

/-- The `queueStore.setItem(id, record)` write: replaces the record stored
under the key if present, otherwise appends it. -/
def setItem (store : Store) (req : OfflineRequest) : Store :=
  if store.any (fun r => r.id == req.id) then
    store.map (fun r => if r.id == req.id then req else r)
  else store ++ [req]

/-- `OfflineService.removeRequest(id)`: `queueStore.removeItem(id)`. -/
def removeRequest (store : Store) (id : String) : Store :=
  store.filter (fun r => !(r.id == id))

/-- `OfflineService.updateRequestRetry(id, retries)`: read the stored
record, overwrite its `retries` field, and write it back; a no-op when the
record is gone. -/
def updateRequestRetry (store : Store) (id : String) (retries : Nat) : Store :=
  match getItem store id with
  | none => store
  | some req => setItem store { req with retries := retries }

/-- Comparison used by `getPendingRequests`: ascending `timestamp`
(`(a, b) => a.timestamp - b.timestamp`). -/
def tsLE (a b : OfflineRequest) : Prop := a.timestamp ≤ b.timestamp

instance : DecidableRel tsLE := fun a b => Nat.decLe a.timestamp b.timestamp

instance : IsTotal OfflineRequest tsLE := ⟨fun a b => Nat.le_total a.timestamp b.timestamp⟩

instance : IsTrans OfflineRequest tsLE := ⟨fun _ _ _ h₁ h₂ => Nat.le_trans h₁ h₂⟩

/-- `OfflineService.getPendingRequests()`: every stored record, sorted
ascending by `timestamp` (oldest first). -/
def getPendingRequests (store : Store) : List OfflineRequest :=
  List.insertionSort tsLE store

/-- `OfflineService.clearAllRequests()`. -/
def clearAllRequests (_store : Store) : Store := []

section StoreLemmas

theorem getItem_mem {store : Store} {i : String} {r : OfflineRequest}
    (h : getItem store i = some r) : r ∈ store :=
  List.mem_of_find?_eq_some h

theorem getItem_id {store : Store} {i : String} {r : OfflineRequest}
    (h : getItem store i = some r) : r.id = i := by
  have := List.find?_some h
  simpa using this

theorem getItem_eq_none {store : Store} {i : String} :
    getItem store i = none ↔ ∀ r ∈ store, r.id ≠ i := by
  simp [getItem]

theorem eq_of_mem_of_id_eq {store : Store} {a b : OfflineRequest}
    (hnd : (store.map (fun r => r.id)).Nodup)
    (ha : a ∈ store) (hb : b ∈ store) (h : a.id = b.id) : a = b :=
  List.inj_on_of_nodup_map hnd ha hb h

theorem mem_getItem {store : Store} {r : OfflineRequest}
    (hnd : (store.map (fun r => r.id)).Nodup) (hr : r ∈ store) :
    getItem store r.id = some r := by
  induction store with
  | nil => cases hr
  | cons x xs ih =>
    by_cases hx : x.id = r.id
    · have hxr : x = r := by
        rcases List.mem_cons.mp hr with h | h
        · exact h ▸ rfl
        · exact eq_of_mem_of_id_eq hnd (List.mem_cons_self x xs)
            (List.mem_cons_of_mem x h) hx
      simp [getItem, hxr]
    · have hr' : r ∈ xs := by
        rcases List.mem_cons.mp hr with h | h
        · exact absurd (h ▸ rfl) hx
        · exact h
      have hnd' : (xs.map (fun r => r.id)).Nodup := (List.nodup_cons.mp hnd).2
      have : getItem xs r.id = some r := ih hnd' hr'
      simpa [getItem, hx] using this

theorem mem_removeRequest {store : Store} {i : String} {r : OfflineRequest} :
    r ∈ removeRequest store i ↔ r ∈ store ∧ r.id ≠ i := by
  simp [removeRequest]

theorem removeRequest_sublist (store : Store) (i : String) :
    List.Sublist (removeRequest store i) store :=
  List.filter_sublist store

theorem id_not_mem_removeRequest (store : Store) (i : String) :
    i ∉ (removeRequest store i).map (fun r => r.id) := by
  intro h
  rcases List.mem_map.mp h with ⟨r, hr, hid⟩
  exact (mem_removeRequest.mp hr).2 hid

theorem length_removeRequest_lt {store : Store} {i : String} {r : OfflineRequest}
    (h : getItem store i = some r) :
    (removeRequest store i).length < store.length := by
  have hr : r ∈ store := getItem_mem h
  have hid : r.id = i := getItem_id h
  induction store with
  | nil => cases hr
  | cons x xs ih =>
    rcases List.mem_cons.mp hr with hx | hx
    · subst hx
      have : ¬ (!(r.id == i)) = true := by simp [hid]
      simp only [removeRequest, List.filter_cons, this]
      exact Nat.lt_succ_of_le ((List.filter_sublist xs).length_le)
    · by_cases hxi : x.id = i
      · have : ¬ (!(x.id == i)) = true := by simp [hxi]
        simp only [removeRequest, List.filter_cons, this]
        exact Nat.lt_succ_of_le ((List.filter_sublist xs).length_le)
      · have hget : getItem xs i = some r := by
          have : getItem (x :: xs) i = getItem xs i := by
            simp [getItem, List.find?_cons_of_neg, hxi]
          rw [← this]; exact h
        have := ih hget hx
        have hxk : ((!(x.id == i)) = true) := by simp [hxi]
        simp only [removeRequest, List.filter_cons, hxk, if_pos]
        simpa [removeRequest] using Nat.succ_lt_succ this

theorem getItem_removeRequest_ne {store : Store} {i j : String} (h : j ≠ i) :
    getItem (removeRequest store i) j = getItem store j := by
  induction store with
  | nil => rfl
  | cons x xs ih =>
    by_cases hxi : x.id = i
    · have hxj : ¬ x.id = j := fun hj => h ((hj ▸ hxi :).symm ▸ rfl)
      have h1 : removeRequest (x :: xs) i = removeRequest xs i := by
        simp [removeRequest, List.filter_cons, hxi]
      have h2 : getItem (x :: xs) j = getItem xs j := by
        unfold getItem
        rw [List.find?_cons_of_neg xs (by simp [hxj])]
      rw [h1, h2]; exact ih
    · have h1 : removeRequest (x :: xs) i = x :: removeRequest xs i := by
        simp [removeRequest, List.filter_cons, hxi]
      by_cases hxj : x.id = j
      · unfold getItem
        rw [h1]
        rw [List.find?_cons_of_pos xs (by simp [hxj]),
          List.find?_cons_of_pos (removeRequest xs i) (by simp [hxj])]
      · unfold getItem
        rw [h1]
        rw [List.find?_cons_of_neg xs (by simp [hxj]),
          List.find?_cons_of_neg (removeRequest xs i) (by simp [hxj])]
        exact ih

theorem removeRequest_ids_sublist (store : Store) (i : String) :
    List.Sublist ((removeRequest store i).map (fun r => r.id))
      (store.map (fun r => r.id)) :=
  (removeRequest_sublist store i).map (fun r => r.id)

theorem getItem_map_of_id_preserved (f : OfflineRequest → OfflineRequest)
    (hf : ∀ x, (f x).id = x.id) (store : Store) (j : String) :
    getItem (store.map f) j = (getItem store j).map f := by
  induction store with
  | nil => rfl
  | cons x xs ih =>
    by_cases hxj : x.id = j
    · unfold getItem
      rw [List.map_cons, List.find?_cons_of_pos (xs.map f) (by simp [hf, hxj]),
        List.find?_cons_of_pos xs (by simp [hxj])]
      rfl
    · unfold getItem
      rw [List.map_cons, List.find?_cons_of_neg (xs.map f) (by simp [hf, hxj]),
        List.find?_cons_of_neg xs (by simp [hxj])]
      exact ih

theorem updateRequestRetry_eq_map {store : Store} {i : String} {n : Nat}
    {r : OfflineRequest} (h : getItem store i = some r) :
    updateRequestRetry store i n =
      store.map (fun x => if x.id == i then { r with retries := n } else x) := by
  have hid : r.id = i := getItem_id h
  have hmem : r ∈ store := getItem_mem h
  have hany : (store.any fun x => x.id == i) = true := by
    simp only [List.any_eq_true]
    exact ⟨r, hmem, by simp [hid]⟩
  have e1 : updateRequestRetry store i n = setItem store { r with retries := n } := by
    unfold updateRequestRetry
    rw [h]
  rw [e1]
  unfold setItem
  simp only [hid]
  rw [if_pos hany]

theorem updateRequestRetry_ids (store : Store) (i : String) (n : Nat) :
    (updateRequestRetry store i n).map (fun r => r.id) = store.map (fun r => r.id) := by
  cases h : getItem store i with
  | none => unfold updateRequestRetry; rw [h]
  | some r =>
    rw [updateRequestRetry_eq_map h, List.map_map]
    refine List.map_congr_left (fun x _ => ?_)
    by_cases hx : x.id = i
    · simp [Function.comp, hx, getItem_id h]
    · simp [Function.comp, hx]

theorem updateRequestRetry_length (store : Store) (i : String) (n : Nat) :
    (updateRequestRetry store i n).length = store.length := by
  have := congrArg List.length (updateRequestRetry_ids store i n)
  simpa using this

theorem getItem_updateRequestRetry_ne {store : Store} {i j : String} {n : Nat}
    (h : j ≠ i) :
    getItem (updateRequestRetry store i n) j = getItem store j := by
  cases hg : getItem store i with
  | none => unfold updateRequestRetry; rw [hg]
  | some r =>
    rw [updateRequestRetry_eq_map hg]
    rw [getItem_map_of_id_preserved (fun x => if x.id == i then { r with retries := n } else x)
      (by
        intro x
        by_cases hx : x.id = i
        · simp [hx, getItem_id hg]
        · simp [hx])]
    cases hj : getItem store j with
    | none => rfl
    | some r' =>
      have : r'.id = j := getItem_id hj
      simp [this, h]

theorem getItem_updateRequestRetry_self {store : Store} {i : String} {n : Nat}
    {r : OfflineRequest} (h : getItem store i = some r) :
    getItem (updateRequestRetry store i n) i = some { r with retries := n } := by
  rw [updateRequestRetry_eq_map h]
  rw [getItem_map_of_id_preserved (fun x => if x.id == i then { r with retries := n } else x)
    (by
      intro x
      by_cases hx : x.id = i
      · simp [hx, getItem_id h]
      · simp [hx])]
  rw [h]
  simp [getItem_id h]

end StoreLemmas

/-- Outcome oracle for one drain pass: for each request id, the result the
combination of `processApiRequest` / `processImageUpload` would produce for
that request (the request gateway call together with any follow-up work).
A successful replay produces a response body, a failed one a typed
`ApiError`.  Reconciliation of stored report images touches only the
separate report-images store and never fails the request (it is wrapped in
its own `try`/`catch`), so it is modelled separately below. -/
abbrev ReplayOracle := String → Except ApiError String

/-- Whether a replay outcome counts as success. -/
def replayOk (o : Except ApiError String) : Bool :=
  match o with
  | .ok _ => true
  | .error _ => false

/-- One gateway replay attempt recorded by a drain pass: the request as it
appeared at the head of the pending list, and whether the attempt
succeeded. -/
abbrev Attempt := OfflineRequest × Bool

/-- Result of one drain pass: the final queue store, the sequence of replay
attempts in the order they were handed to the gateway, and the final value
of `processedCount`. -/
structure DrainOut where
  store : Store
  trace : List Attempt
  count : Nat
deriving Repr, DecidableEq

/-- The `while` loop of `OfflineService.syncPendingRequests`, with its
state made explicit: the queue store, the current `requests` list, the
`processedIds` set, and `processedCount`.  The recursion is indexed by
fuel; `drainLoop_spec` below proves the fuel chosen by
`syncPendingRequests` always suffices, so the `none` case is unreachable
from the entry point. -/
def drainLoop (oracle : ReplayOracle) :
    Nat → Store → List OfflineRequest → List String → Nat → List Attempt →
    Option DrainOut
  | 0, _, _, _, _, _ => none
  | _ + 1, store, [], _, count, trace => some ⟨store, trace, count⟩
  | fuel + 1, store, req :: rest, processed, count, trace =>
      if 50 ≤ count then some ⟨store, trace, count⟩
      else if req.id ∈ processed then
        drainLoop oracle fuel store rest processed count trace
      else if 3 ≤ req.retries then
        let store' := removeRequest store req.id
        drainLoop oracle fuel store' (getPendingRequests store')
          (req.id :: processed) count trace
      else
        match getItem store req.id with
        | none => drainLoop oracle fuel store rest (req.id :: processed) count trace
        | some _ =>
          match oracle req.id with
          | .ok _ =>
            let store' := removeRequest store req.id
            drainLoop oracle fuel store' (getPendingRequests store')
              (req.id :: processed) (count + 1) (trace ++ [(req, true)])
          | .error _ =>
            let store' := updateRequestRetry store req.id (req.retries + 1)
            drainLoop oracle fuel store' rest (req.id :: processed) count
              (trace ++ [(req, false)])

/-- Termination measure for the drain loop. -/
def drainMeasure (store : Store) (pending : List OfflineRequest) : Nat :=
  store.length * (store.length + 1) + pending.length

/-- Fuel handed to the loop by the entry point; strictly larger than the
initial measure. -/
def drainFuel (store : Store) : Nat :=
  store.length * (store.length + 1) + store.length + 1

/-- `OfflineService.syncPendingRequests` without its `syncInProgress`
guard: load the pending requests sorted by timestamp and run the drain
loop.  The 50 ms settling delay the code inserts after each successful
removal has no observable effect in this sequential embedding. -/
def syncPendingRequests (oracle : ReplayOracle) (store : Store) : Option DrainOut :=
  drainLoop oracle (drainFuel store) store (getPendingRequests store) [] 0 []

section DrainStepLemmas

variable {oracle : ReplayOracle} {fuel : Nat} {store : Store}
variable {req : OfflineRequest} {rest : List OfflineRequest}
variable {processed : List String} {count : Nat} {trace : List Attempt}

theorem drainLoop_nil :
    drainLoop oracle (fuel + 1) store [] processed count trace =
      some ⟨store, trace, count⟩ := rfl

theorem drainLoop_capped (hcount : 50 ≤ count) :
    drainLoop oracle (fuel + 1) store (req :: rest) processed count trace =
      some ⟨store, trace, count⟩ := by
  conv_lhs => unfold drainLoop
  rw [if_pos hcount]

theorem drainLoop_skip (hcount : ¬ 50 ≤ count) (hproc : req.id ∈ processed) :
    drainLoop oracle (fuel + 1) store (req :: rest) processed count trace =
      drainLoop oracle fuel store rest processed count trace := by
  conv_lhs => unfold drainLoop
  rw [if_neg hcount, if_pos hproc]

theorem drainLoop_exhausted (hcount : ¬ 50 ≤ count) (hproc : req.id ∉ processed)
    (hret : 3 ≤ req.retries) :
    drainLoop oracle (fuel + 1) store (req :: rest) processed count trace =
      drainLoop oracle fuel (removeRequest store req.id)
        (getPendingRequests (removeRequest store req.id))
        (req.id :: processed) count trace := by
  conv_lhs => unfold drainLoop
  rw [if_neg hcount, if_neg hproc, if_pos hret]

theorem drainLoop_missing (hcount : ¬ 50 ≤ count) (hproc : req.id ∉ processed)
    (hret : ¬ 3 ≤ req.retries) (hget : getItem store req.id = none) :
    drainLoop oracle (fuel + 1) store (req :: rest) processed count trace =
      drainLoop oracle fuel store rest (req.id :: processed) count trace := by
  conv_lhs => unfold drainLoop
  rw [if_neg hcount, if_neg hproc, if_neg hret, hget]

theorem drainLoop_success {cur : OfflineRequest} {body : String}
    (hcount : ¬ 50 ≤ count) (hproc : req.id ∉ processed)
    (hret : ¬ 3 ≤ req.retries) (hget : getItem store req.id = some cur)
    (horacle : oracle req.id = .ok body) :
    drainLoop oracle (fuel + 1) store (req :: rest) processed count trace =
      drainLoop oracle fuel (removeRequest store req.id)
        (getPendingRequests (removeRequest store req.id))
        (req.id :: processed) (count + 1) (trace ++ [(req, true)]) := by
  conv_lhs => unfold drainLoop
  rw [if_neg hcount, if_neg hproc, if_neg hret, hget, horacle]

theorem drainLoop_failure {cur : OfflineRequest} {e : ApiError}
    (hcount : ¬ 50 ≤ count) (hproc : req.id ∉ processed)
    (hret : ¬ 3 ≤ req.retries) (hget : getItem store req.id = some cur)
    (horacle : oracle req.id = .error e) :
    drainLoop oracle (fuel + 1) store (req :: rest) processed count trace =
      drainLoop oracle fuel (updateRequestRetry store req.id (req.retries + 1))
        rest (req.id :: processed) count (trace ++ [(req, false)]) := by
  conv_lhs => unfold drainLoop
  rw [if_neg hcount, if_neg hproc, if_neg hret, hget, horacle]

end DrainStepLemmas

section PendingLemmas

theorem getPendingRequests_perm (store : Store) :
    (getPendingRequests store).Perm store :=
  List.perm_insertionSort tsLE store

theorem mem_getPendingRequests {store : Store} {x : OfflineRequest} :
    x ∈ getPendingRequests store ↔ x ∈ store :=
  (getPendingRequests_perm store).mem_iff

theorem getPendingRequests_sorted (store : Store) :
    List.Sorted tsLE (getPendingRequests store) :=
  List.sorted_insertionSort tsLE store

theorem getPendingRequests_length (store : Store) :
    (getPendingRequests store).length = store.length :=
  (getPendingRequests_perm store).length_eq

theorem measure_dec {a b p : Nat} (h : a < b) :
    a * (a + 1) + a < b * (b + 1) + p + 1 := by
  have h1 : a + 1 ≤ b := h
  have h2 : a * (a + 1) + a + 1 ≤ b * b := by
    calc a * (a + 1) + a + 1 = (a + 1) * (a + 1) := by ring
    _ ≤ b * b := Nat.mul_le_mul h1 h1
  have h3 : b * b ≤ b * (b + 1) := Nat.mul_le_mul_left b (Nat.le_succ b)
  omega

theorem mem_update_char {store : Store} {i : String} {n : Nat} {cur r' : OfflineRequest}
    (hnd : (store.map (fun r => r.id)).Nodup)
    (hget : getItem store i = some cur)
    (hr' : r' ∈ updateRequestRetry store i n) :
    ∃ r ∈ store, r'.id = r.id ∧ r'.timestamp = r.timestamp ∧
      (r' = r ∨ (r.id = i ∧ r' = { r with retries := n })) := by
  rw [updateRequestRetry_eq_map hget] at hr'
  rcases List.mem_map.mp hr' with ⟨r, hr, hfr⟩
  by_cases hri : r.id = i
  · have hrc : cur = r :=
      eq_of_mem_of_id_eq hnd (getItem_mem hget) hr (by rw [getItem_id hget, hri])
    refine ⟨r, hr, ?_, ?_, Or.inr ⟨hri, ?_⟩⟩
    · rw [← hfr]; simp [hri, hrc]
    · rw [← hfr]; simp [hri, hrc]
    · rw [← hfr]; simp [hri, hrc]
  · refine ⟨r, hr, ?_, ?_, Or.inl ?_⟩
    · rw [← hfr]; simp [hri]
    · rw [← hfr]; simp [hri]
    · rw [← hfr]; simp [hri]

theorem exists_of_mem_ids {store : Store} {i : String}
    (h : i ∈ store.map (fun r => r.id)) : ∃ r ∈ store, r.id = i := by
  rcases List.mem_map.mp h with ⟨r, hr, hid⟩
  exact ⟨r, hr, hid⟩

end PendingLemmas

/-- Loop invariant of the drain loop, relating the queue store, the
current working list (`requests`), `processedIds`, `processedCount` and
the attempt trace.  The parameter `n₀` bounds `count + store.length`
(initially the store size) and `r₀` is an arbitrary distinguished request
used to track the fate of a retry-exhausted record. -/
structure DrainInv (n₀ : Nat) (r₀ : OfflineRequest) (store : Store)
    (pending : List OfflineRequest) (processed : List String)
    (count : Nat) (trace : List Attempt) : Prop where
  nodupStore : (store.map (fun r => r.id)).Nodup
  sortedPending : List.Sorted tsLE pending
  pendingSub : ∀ p ∈ pending, p.id ∈ store.map (fun r => r.id)
  storeCov : ∀ r ∈ store, r.id ∉ processed → r.id ∈ pending.map (fun r => r.id)
  tsAgree : ∀ p ∈ pending, ∀ r ∈ store, r.id = p.id → r.timestamp = p.timestamp
  retAgree : ∀ p ∈ pending, p.id ∉ processed → ∀ r ∈ store, r.id = p.id →
    r.retries = p.retries
  traceSorted : List.Sorted tsLE (trace.map Prod.fst)
  traceUB : ∀ a ∈ trace, ∀ p ∈ pending, p.id ∉ processed →
    a.1.timestamp ≤ p.timestamp
  countBound : count + store.length ≤ n₀
  countLe : count ≤ 50
  countTrace : count = trace.countP (fun a => a.2)
  exhInv : 3 ≤ r₀.retries →
    ((getItem store r₀.id = some r₀ ∧ r₀.id ∉ processed) ∨
      r₀.id ∉ store.map (fun r => r.id)) ∧
    ∀ a ∈ trace, a.1.id ≠ r₀.id

/-- Master specification of the drain loop: under the invariant and with
fuel above the measure, the loop returns (the fuel never runs out), the
attempt trace is sorted by timestamp, the processed counter stays at most
50 and counts exactly the successful attempts, the store only loses ids,
retry counters never decrease, and a distinguished retry-exhausted record
is deleted without being attempted (when the initial bound is at most
50). -/
theorem drainLoop_spec (oracle : ReplayOracle) (n₀ : Nat) (r₀ : OfflineRequest) :
    ∀ fuel store pending processed count trace,
    DrainInv n₀ r₀ store pending processed count trace →
    drainMeasure store pending < fuel →
    ∃ out : DrainOut,
      drainLoop oracle fuel store pending processed count trace = some out ∧
      List.Sorted tsLE (out.trace.map Prod.fst) ∧
      out.count ≤ 50 ∧
      out.count = out.trace.countP (fun a => a.2) ∧
      (∀ i, i ∈ out.store.map (fun r => r.id) → i ∈ store.map (fun r => r.id)) ∧
      (∀ i r r', getItem store i = some r → getItem out.store i = some r' →
        r.retries ≤ r'.retries) ∧
      (3 ≤ r₀.retries → n₀ ≤ 50 →
        r₀.id ∉ out.store.map (fun r => r.id) ∧ ∀ a ∈ out.trace, a.1.id ≠ r₀.id) := by
  intro fuel
  induction fuel with
  | zero =>
    intro store pending processed count trace _ hmeas
    exact absurd hmeas (Nat.not_lt_zero _)
  | succ fuel ih =>
    intro store pending processed count trace inv hmeas
    cases pending with
    | nil =>
      refine ⟨⟨store, trace, count⟩, drainLoop_nil, inv.traceSorted, inv.countLe,
        inv.countTrace, fun i hi => hi, ?_, ?_⟩
      · intro i r r' h1 h2
        rw [h1] at h2
        exact le_of_eq (congrArg OfflineRequest.retries (Option.some.inj h2))
      · intro h3 _
        obtain ⟨hdisj, htr⟩ := inv.exhInv h3
        refine ⟨?_, htr⟩
        rcases hdisj with ⟨hget, hnp⟩ | hnot
        · have := inv.storeCov r₀ (getItem_mem hget) (by rw [getItem_id hget]; exact hnp)
          simp at this
        · exact hnot
    | cons req rest =>
      by_cases hcap : 50 ≤ count
      · refine ⟨⟨store, trace, count⟩, drainLoop_capped hcap, inv.traceSorted,
          inv.countLe, inv.countTrace, fun i hi => hi, ?_, ?_⟩
        · intro i r r' h1 h2
          rw [h1] at h2
          exact le_of_eq (congrArg OfflineRequest.retries (Option.some.inj h2))
        · intro h3 hn
          obtain ⟨_, htr⟩ := inv.exhInv h3
          have hzero : store.length = 0 := by
            have := inv.countBound
            omega
          have hstore : store = [] := List.length_eq_zero.mp hzero
          subst hstore
          exact ⟨by simp, htr⟩
      · by_cases hproc : req.id ∈ processed
        · -- skip an already processed id
          rw [drainLoop_skip hcap hproc]
          have inv' : DrainInv n₀ r₀ store rest processed count trace :=
            ⟨inv.nodupStore,
             inv.sortedPending.of_cons,
             fun p hp => inv.pendingSub p (List.mem_cons_of_mem _ hp),
             fun r hr hnp => by
               have h := inv.storeCov r hr hnp
               rw [List.map_cons] at h
               rcases List.mem_cons.mp h with h | h
               · exact absurd (by rw [h]; exact hproc) hnp
               · exact h,
             fun p hp r hr h => inv.tsAgree p (List.mem_cons_of_mem _ hp) r hr h,
             fun p hp hnp r hr h =>
               inv.retAgree p (List.mem_cons_of_mem _ hp) hnp r hr h,
             inv.traceSorted,
             fun a ha p hp hnp => inv.traceUB a ha p (List.mem_cons_of_mem _ hp) hnp,
             inv.countBound, inv.countLe, inv.countTrace, inv.exhInv⟩
          have hmeas' : drainMeasure store rest < fuel := by
            simp only [drainMeasure, List.length_cons] at hmeas ⊢
            omega
          exact ih store rest processed count trace inv' hmeas'
        · by_cases hret : 3 ≤ req.retries
          · -- retry-exhausted head: delete it without an attempt
            rw [drainLoop_exhausted hcap hproc hret]
            obtain ⟨rs, hrs, hrsid⟩ := exists_of_mem_ids
              (inv.pendingSub req (List.mem_cons_self req rest))
            have hget : getItem store req.id = some rs := by
              rw [← hrsid]
              exact mem_getItem inv.nodupStore hrs
            have hlen : (removeRequest store req.id).length < store.length :=
              length_removeRequest_lt hget
            have hnd' : ((removeRequest store req.id).map (fun r => r.id)).Nodup :=
              inv.nodupStore.sublist (removeRequest_ids_sublist store req.id)
            have hcov' : ∀ p ∈ store, p.id ∉ processed → p.id ≠ req.id →
                ∃ q ∈ req :: rest, q.id = p.id ∧ p.timestamp = q.timestamp := by
              intro p hp hnp hne
              obtain ⟨q, hq, hqid⟩ := exists_of_mem_ids (inv.storeCov p hp hnp)
              exact ⟨q, hq, hqid, inv.tsAgree q hq p hp hqid.symm⟩
            have inv' : DrainInv n₀ r₀ (removeRequest store req.id)
                (getPendingRequests (removeRequest store req.id))
                (req.id :: processed) count trace :=
              ⟨hnd',
               getPendingRequests_sorted _,
               fun p hp => List.mem_map_of_mem _ (mem_getPendingRequests.mp hp),
               fun r hr _ => List.mem_map_of_mem _ (mem_getPendingRequests.mpr hr),
               fun p hp r hr h => by
                 have hps := mem_getPendingRequests.mp hp
                 have := eq_of_mem_of_id_eq hnd' hr hps h
                 rw [this],
               fun p hp _ r hr h => by
                 have hps := mem_getPendingRequests.mp hp
                 have := eq_of_mem_of_id_eq hnd' hr hps h
                 rw [this],
               inv.traceSorted,
               fun a ha p hp hnp => by
                 have hps : p ∈ store :=
                   (removeRequest_sublist store req.id).subset (mem_getPendingRequests.mp hp)
                 have hpne : p.id ≠ req.id := by
                   intro he
                   have hmm : p.id ∈ (removeRequest store req.id).map (fun r => r.id) :=
                     List.mem_map_of_mem _ (mem_getPendingRequests.mp hp)
                   exact id_not_mem_removeRequest store req.id (he ▸ hmm)
                 have hnp' : p.id ∉ processed := fun hh => hnp (List.mem_cons_of_mem _ hh)
                 obtain ⟨q, hq, hqid, hqts⟩ := hcov' p hps hnp' hpne
                 rw [hqts]
                 exact inv.traceUB a ha q hq (by rw [hqid]; exact hnp'),
               by
                 have := (removeRequest_sublist store req.id).length_le
                 have := inv.countBound
                 omega,
               inv.countLe, inv.countTrace,
               by
                 intro h3
                 obtain ⟨hdisj, htr⟩ := inv.exhInv h3
                 refine ⟨?_, htr⟩
                 rcases hdisj with ⟨hg0, hnp0⟩ | hnot
                 · by_cases he : req.id = r₀.id
                   · right
                     rw [← he]
                     exact id_not_mem_removeRequest store req.id
                   · left
                     refine ⟨by rw [getItem_removeRequest_ne (fun hh => he hh.symm)]; exact hg0, ?_⟩
                     intro hmem
                     rcases List.mem_cons.mp hmem with hh | hh
                     · exact he hh.symm
                     · exact hnp0 hh
                 · right
                   intro hmem
                   exact hnot ((removeRequest_ids_sublist store req.id).subset hmem)⟩
            have hmeas' : drainMeasure (removeRequest store req.id)
                (getPendingRequests (removeRequest store req.id)) < fuel := by
              have hm := measure_dec (p := rest.length) hlen
              simp only [drainMeasure, List.length_cons] at hmeas ⊢
              rw [getPendingRequests_length]
              omega
            obtain ⟨out, heq, hsorted, hcle, hctr, hids, hmono, hexh⟩ :=
              ih _ _ _ _ _ inv' hmeas'
            refine ⟨out, heq, hsorted, hcle, hctr, ?_, ?_, hexh⟩
            · intro i hi
              exact (removeRequest_ids_sublist store req.id).subset (hids i hi)
            · intro i r r' h1 h2
              by_cases hi : i = req.id
              · exfalso
                have : i ∈ out.store.map (fun r => r.id) := by
                  rw [← getItem_id h2]
                  exact List.mem_map_of_mem _ (getItem_mem h2)
                have := hids i this
                rw [hi] at this
                exact id_not_mem_removeRequest store req.id this
              · have h1' : getItem (removeRequest store req.id) i = some r := by
                  rw [getItem_removeRequest_ne hi]
                  exact h1
                exact hmono i r r' h1' h2
          · -- head not yet exhausted: replay it through the gateway
            cases hget : getItem store req.id with
            | none =>
              rw [drainLoop_missing hcap hproc hret hget]
              have hne : ∀ r ∈ store, r.id ≠ req.id := getItem_eq_none.mp hget
              have inv' : DrainInv n₀ r₀ store rest (req.id :: processed) count trace :=
                ⟨inv.nodupStore,
                 inv.sortedPending.of_cons,
                 fun p hp => inv.pendingSub p (List.mem_cons_of_mem _ hp),
                 fun r hr hnp => by
                   have hnp' : r.id ∉ processed := fun hh => hnp (List.mem_cons_of_mem _ hh)
                   have h := inv.storeCov r hr hnp'
                   rw [List.map_cons] at h
                   rcases List.mem_cons.mp h with h | h
                   · exact absurd h (hne r hr)
                   · exact h,
                 fun p hp r hr h => inv.tsAgree p (List.mem_cons_of_mem _ hp) r hr h,
                 fun p hp hnp r hr h => inv.retAgree p (List.mem_cons_of_mem _ hp)
                   (fun hh => hnp (List.mem_cons_of_mem _ hh)) r hr h,
                 inv.traceSorted,
                 fun a ha p hp hnp => inv.traceUB a ha p (List.mem_cons_of_mem _ hp)
                   (fun hh => hnp (List.mem_cons_of_mem _ hh)),
                 inv.countBound, inv.countLe, inv.countTrace,
                 by
                   intro h3
                   obtain ⟨hdisj, htr⟩ := inv.exhInv h3
                   refine ⟨?_, htr⟩
                   rcases hdisj with ⟨hg0, hnp0⟩ | hnot
                   · left
                     refine ⟨hg0, ?_⟩
                     intro hmem
                     rcases List.mem_cons.mp hmem with hh | hh
                     · exact hne r₀ (getItem_mem hg0) (by rw [getItem_id hg0]; exact hh)
                     · exact hnp0 hh
                   · right; exact hnot⟩
              have hmeas' : drainMeasure store rest < fuel := by
                simp only [drainMeasure, List.length_cons] at hmeas ⊢
                omega
              exact ih store rest (req.id :: processed) count trace inv' hmeas'
            | some cur =>
              have hcurid : cur.id = req.id := getItem_id hget
              have hcurret : cur.retries = req.retries :=
                inv.retAgree req (List.mem_cons_self req rest) hproc cur
                  (getItem_mem hget) hcurid
              cases horacle : oracle req.id with
              | ok body =>
                rw [drainLoop_success hcap hproc hret hget horacle]
                have hlen : (removeRequest store req.id).length < store.length :=
                  length_removeRequest_lt hget
                have hnd' : ((removeRequest store req.id).map (fun r => r.id)).Nodup :=
                  inv.nodupStore.sublist (removeRequest_ids_sublist store req.id)
                have hcov' : ∀ p ∈ store, p.id ∉ processed → p.id ≠ req.id →
                    ∃ q ∈ rest, q.id = p.id ∧ p.timestamp = q.timestamp := by
                  intro p hp hnp hne
                  obtain ⟨q, hq, hqid⟩ := exists_of_mem_ids (inv.storeCov p hp hnp)
                  rcases List.mem_cons.mp hq with hh | hh
                  · exact absurd (by rw [← hqid, hh]) hne
                  · exact ⟨q, hh, hqid, inv.tsAgree q hq p hp hqid.symm⟩
                have htraceS : List.Sorted tsLE
                    ((trace ++ [(req, true)]).map Prod.fst) := by
                  rw [List.map_append]
                  refine List.pairwise_append.mpr ⟨inv.traceSorted, by simp [tsLE], ?_⟩
                  intro a ha b hb
                  rcases List.mem_map.mp ha with ⟨att, hatt, rfl⟩
                  have hb' : b = req := by simpa using hb
                  rw [hb']
                  exact inv.traceUB att hatt req (List.mem_cons_self req rest) hproc
                have inv' : DrainInv n₀ r₀ (removeRequest store req.id)
                    (getPendingRequests (removeRequest store req.id))
                    (req.id :: processed) (count + 1) (trace ++ [(req, true)]) :=
                  ⟨hnd',
                   getPendingRequests_sorted _,
                   fun p hp => List.mem_map_of_mem _ (mem_getPendingRequests.mp hp),
                   fun r hr _ => List.mem_map_of_mem _ (mem_getPendingRequests.mpr hr),
                   fun p hp r hr h => by
                     have hps := mem_getPendingRequests.mp hp
                     have := eq_of_mem_of_id_eq hnd' hr hps h
                     rw [this],
                   fun p hp _ r hr h => by
                     have hps := mem_getPendingRequests.mp hp
                     have := eq_of_mem_of_id_eq hnd' hr hps h
                     rw [this],
                   htraceS,
                   fun a ha p hp hnp => by
                     have hps : p ∈ store :=
                       (removeRequest_sublist store req.id).subset
                         (mem_getPendingRequests.mp hp)
                     have hpne : p.id ≠ req.id := by
                       intro he
                       have hmm : p.id ∈ (removeRequest store req.id).map (fun r => r.id) :=
                         List.mem_map_of_mem _ (mem_getPendingRequests.mp hp)
                       exact id_not_mem_removeRequest store req.id (he ▸ hmm)
                     have hnp' : p.id ∉ processed := fun hh =>
                       hnp (List.mem_cons_of_mem _ hh)
                     obtain ⟨q, hq, hqid, hqts⟩ := hcov' p hps hnp' hpne
                     rcases List.mem_append.mp ha with ha' | ha'
                     · rw [hqts]
                       exact inv.traceUB a ha' q (List.mem_cons_of_mem _ hq)
                         (by rw [hqid]; exact hnp')
                     · have : a = (req, true) := by simpa using ha'
                       rw [this, hqts]
                       exact List.rel_of_sorted_cons inv.sortedPending q hq,
                   by
                     have := inv.countBound
                     omega,
                   by omega,
                   by
                     have := inv.countTrace
                     simp [List.countP_append, List.countP_cons]
                     omega,
                   by
                     intro h3
                     obtain ⟨hdisj, htr⟩ := inv.exhInv h3
                     have hner : req.id ≠ r₀.id := by
                       rcases hdisj with ⟨hg0, hnp0⟩ | hnot
                       · intro he
                         have : cur = r₀ := by
                           rw [he] at hget
                           rw [hget] at hg0
                           exact Option.some.inj hg0
                         rw [this] at hcurret
                         omega
                       · intro he
                         exact hnot (he ▸ (by
                           rw [← hcurid]
                           exact List.mem_map_of_mem _ (getItem_mem hget)))
                     refine ⟨?_, ?_⟩
                     · rcases hdisj with ⟨hg0, hnp0⟩ | hnot
                       · left
                         refine ⟨by rw [getItem_removeRequest_ne (fun hh => hner hh.symm)]; exact hg0, ?_⟩
                         intro hmem
                         rcases List.mem_cons.mp hmem with hh | hh
                         · exact hner hh.symm
                         · exact hnp0 hh
                       · right
                         intro hmem
                         exact hnot ((removeRequest_ids_sublist store req.id).subset hmem)
                     · intro a ha
                       rcases List.mem_append.mp ha with ha' | ha'
                       · exact (inv.exhInv h3).2 a ha'
                       · have : a = (req, true) := by simpa using ha'
                         rw [this]
                         exact hner⟩
                have hmeas' : drainMeasure (removeRequest store req.id)
                    (getPendingRequests (removeRequest store req.id)) < fuel := by
                  have hm := measure_dec (p := rest.length) hlen
                  simp only [drainMeasure, List.length_cons] at hmeas ⊢
                  rw [getPendingRequests_length]
                  omega
                obtain ⟨out, heq, hsorted, hcle, hctr, hids, hmono, hexh⟩ :=
                  ih _ _ _ _ _ inv' hmeas'
                refine ⟨out, heq, hsorted, hcle, hctr, ?_, ?_, hexh⟩
                · intro i hi
                  exact (removeRequest_ids_sublist store req.id).subset (hids i hi)
                · intro i r r' h1 h2
                  by_cases hi : i = req.id
                  · exfalso
                    have : i ∈ out.store.map (fun r => r.id) := by
                      rw [← getItem_id h2]
                      exact List.mem_map_of_mem _ (getItem_mem h2)
                    have := hids i this
                    rw [hi] at this
                    exact id_not_mem_removeRequest store req.id this
                  · have h1' : getItem (removeRequest store req.id) i = some r := by
                      rw [getItem_removeRequest_ne hi]
                      exact h1
                    exact hmono i r r' h1' h2
              | error e =>
                rw [drainLoop_failure hcap hproc hret hget horacle]
                have hids_eq : (updateRequestRetry store req.id (req.retries + 1)).map
                    (fun r => r.id) = store.map (fun r => r.id) :=
                  updateRequestRetry_ids store req.id (req.retries + 1)
                have hnd' : ((updateRequestRetry store req.id (req.retries + 1)).map
                    (fun r => r.id)).Nodup := by
                  rw [hids_eq]; exact inv.nodupStore
                have htraceS : List.Sorted tsLE
                    ((trace ++ [(req, false)]).map Prod.fst) := by
                  rw [List.map_append]
                  refine List.pairwise_append.mpr ⟨inv.traceSorted, by simp [tsLE], ?_⟩
                  intro a ha b hb
                  rcases List.mem_map.mp ha with ⟨att, hatt, rfl⟩
                  have hb' : b = req := by simpa using hb
                  rw [hb']
                  exact inv.traceUB att hatt req (List.mem_cons_self req rest) hproc
                have inv' : DrainInv n₀ r₀ (updateRequestRetry store req.id (req.retries + 1))
                    rest (req.id :: processed) count (trace ++ [(req, false)]) :=
                  ⟨hnd',
                   inv.sortedPending.of_cons,
                   fun p hp => by
                     rw [hids_eq]
                     exact inv.pendingSub p (List.mem_cons_of_mem _ hp),
                   fun r' hr' hnp => by
                     obtain ⟨r, hr, hid, hts, hcase⟩ :=
                       mem_update_char inv.nodupStore hget hr'
                     have hnp' : r.id ∉ processed := fun hh =>
                       hnp (by rw [hid]; exact List.mem_cons_of_mem _ hh)
                     have h := inv.storeCov r hr hnp'
                     rw [List.map_cons] at h
                     rcases List.mem_cons.mp h with h | h
                     · exact absurd (by rw [hid, h]; exact List.mem_cons_self _ _) hnp
                     · rw [hid]; exact h,
                   fun p hp r' hr' h => by
                     obtain ⟨r, hr, hid, hts, hcase⟩ :=
                       mem_update_char inv.nodupStore hget hr'
                     rw [hts]
                     exact inv.tsAgree p (List.mem_cons_of_mem _ hp) r hr (by rw [← hid, h]),
                   fun p hp hnp r' hr' h => by
                     obtain ⟨r, hr, hid, hts, hcase⟩ :=
                       mem_update_char inv.nodupStore hget hr'
                     have hpne : p.id ≠ req.id := fun hh =>
                       hnp (by rw [hh]; exact List.mem_cons_self _ _)
                     rcases hcase with hc | ⟨hrid, hc⟩
                     · rw [hc]
                       exact inv.retAgree p (List.mem_cons_of_mem _ hp)
                         (fun hh => hnp (List.mem_cons_of_mem _ hh)) r hr (by rw [← hc, h])
                     · exact absurd (by rw [← h, hid, hrid]) hpne,
                   htraceS,
                   fun a ha p hp hnp => by
                     have hnp' : p.id ∉ processed := fun hh =>
                       hnp (List.mem_cons_of_mem _ hh)
                     rcases List.mem_append.mp ha with ha' | ha'
                     · exact inv.traceUB a ha' p (List.mem_cons_of_mem _ hp) hnp'
                     · have : a = (req, false) := by simpa using ha'
                       rw [this]
                       exact List.rel_of_sorted_cons inv.sortedPending p hp,
                   by
                     rw [updateRequestRetry_length]
                     have := inv.countBound
                     simp only [List.length_cons] at *
                     omega,
                   inv.countLe,
                   by
                     have := inv.countTrace
                     simp [List.countP_append, List.countP_cons]
                     omega,
                   by
                     intro h3
                     obtain ⟨hdisj, htr⟩ := inv.exhInv h3
                     have hner : req.id ≠ r₀.id := by
                       rcases hdisj with ⟨hg0, hnp0⟩ | hnot
                       · intro he
                         have : r₀.retries = req.retries :=
                           inv.retAgree req (List.mem_cons_self req rest) hproc r₀
                             (getItem_mem hg0) (by rw [getItem_id hg0, he])
                         omega
                       · intro he
                         exact hnot (he ▸ (by
                           rw [← hcurid]
                           exact List.mem_map_of_mem _ (getItem_mem hget)))
                     refine ⟨?_, ?_⟩
                     · rcases hdisj with ⟨hg0, hnp0⟩ | hnot
                       · left
                         refine ⟨?_, ?_⟩
                         · rw [getItem_updateRequestRetry_ne (fun hh => hner hh.symm)]
                           exact hg0
                         · intro hmem
                           rcases List.mem_cons.mp hmem with hh | hh
                           · exact hner hh.symm
                           · exact hnp0 hh
                       · right
                         rw [hids_eq]
                         exact hnot
                     · intro a ha
                       rcases List.mem_append.mp ha with ha' | ha'
                       · exact htr a ha'
                       · have : a = (req, false) := by simpa using ha'
                         rw [this]
                         exact hner⟩
                have hmeas' : drainMeasure (updateRequestRetry store req.id (req.retries + 1))
                    rest < fuel := by
                  simp only [drainMeasure, List.length_cons] at hmeas ⊢
                  rw [updateRequestRetry_length]
                  omega
                obtain ⟨out, heq, hsorted, hcle, hctr, hids, hmono, hexh⟩ :=
                  ih _ _ _ _ _ inv' hmeas'
                refine ⟨out, heq, hsorted, hcle, hctr, ?_, ?_, hexh⟩
                · intro i hi
                  rw [← hids_eq]
                  exact hids i hi
                · intro i r r' h1 h2
                  by_cases hi : i = req.id
                  · have hrc : r = cur := by
                      rw [hi] at h1
                      rw [h1] at hget
                      exact Option.some.inj hget
                    have h1' : getItem (updateRequestRetry store req.id (req.retries + 1))
                        i = some { cur with retries := req.retries + 1 } := by
                      rw [hi]
                      exact getItem_updateRequestRetry_self hget
                    have := hmono i _ r' h1' h2
                    simp only at this
                    rw [hrc, hcurret]
                    omega
                  · have h1' : getItem (updateRequestRetry store req.id (req.retries + 1))
                        i = some r := by
                      rw [getItem_updateRequestRetry_ne hi]
                      exact h1
                    exact hmono i r r' h1' h2

/-- The drain loop looks at a replay outcome only through success versus
failure: two oracles whose outcomes agree on that observable give
identical drains (in particular, an HTTP-status error and a transport
error are handled identically). -/
theorem drainLoop_oracle_congr {o₁ o₂ : ReplayOracle}
    (h : ∀ i, replayOk (o₁ i) = replayOk (o₂ i)) :
    ∀ fuel store pending processed count trace,
      drainLoop o₁ fuel store pending processed count trace =
      drainLoop o₂ fuel store pending processed count trace := by
  intro fuel
  induction fuel with
  | zero => intro _ _ _ _ _; rfl
  | succ fuel ih =>
    intro store pending processed count trace
    cases pending with
    | nil => rfl
    | cons req rest =>
      by_cases hcap : 50 ≤ count
      · rw [drainLoop_capped hcap, drainLoop_capped hcap]
      · by_cases hproc : req.id ∈ processed
        · rw [drainLoop_skip hcap hproc, drainLoop_skip hcap hproc, ih]
        · by_cases hret : 3 ≤ req.retries
          · rw [drainLoop_exhausted hcap hproc hret,
              drainLoop_exhausted hcap hproc hret, ih]
          · cases hget : getItem store req.id with
            | none =>
              rw [drainLoop_missing hcap hproc hret hget,
                drainLoop_missing hcap hproc hret hget, ih]
            | some cur =>
              have hok := h req.id
              cases ho1 : o₁ req.id with
              | ok b =>
                cases ho2 : o₂ req.id with
                | ok b2 =>
                  rw [drainLoop_success hcap hproc hret hget ho1,
                    drainLoop_success hcap hproc hret hget ho2, ih]
                | error e2 =>
                  rw [ho1, ho2] at hok
                  simp [replayOk] at hok
              | error e =>
                cases ho2 : o₂ req.id with
                | ok b2 =>
                  rw [ho1, ho2] at hok
                  simp [replayOk] at hok
                | error e2 =>
                  rw [drainLoop_failure hcap hproc hret hget ho1,
                    drainLoop_failure hcap hproc hret hget ho2, ih]

/-- Entry-point instantiation of `drainLoop_spec`: the initial working
list is the sorted store, nothing is processed, and the counter and trace
start empty. -/
theorem syncPendingRequests_spec (oracle : ReplayOracle) (store : Store)
    (r₀ : OfflineRequest)
    (hnd : (store.map (fun r => r.id)).Nodup)
    (hr₀ : 3 ≤ r₀.retries →
      getItem store r₀.id = some r₀ ∨ r₀.id ∉ store.map (fun r => r.id)) :
    ∃ out : DrainOut,
      syncPendingRequests oracle store = some out ∧
      List.Sorted tsLE (out.trace.map Prod.fst) ∧
      out.count ≤ 50 ∧
      out.count = out.trace.countP (fun a => a.2) ∧
      (∀ i, i ∈ out.store.map (fun r => r.id) → i ∈ store.map (fun r => r.id)) ∧
      (∀ i r r', getItem store i = some r → getItem out.store i = some r' →
        r.retries ≤ r'.retries) ∧
      (3 ≤ r₀.retries → store.length ≤ 50 →
        r₀.id ∉ out.store.map (fun r => r.id) ∧ ∀ a ∈ out.trace, a.1.id ≠ r₀.id) := by
  have inv : DrainInv store.length r₀ store (getPendingRequests store) [] 0 [] :=
    ⟨hnd,
     getPendingRequests_sorted store,
     fun p hp => List.mem_map_of_mem _ (mem_getPendingRequests.mp hp),
     fun r hr _ => List.mem_map_of_mem _ (mem_getPendingRequests.mpr hr),
     fun p hp r hr h => by
       rw [eq_of_mem_of_id_eq hnd hr (mem_getPendingRequests.mp hp) h],
     fun p hp _ r hr h => by
       rw [eq_of_mem_of_id_eq hnd hr (mem_getPendingRequests.mp hp) h],
     by simp,
     by simp,
     by omega,
     by omega,
     rfl,
     by
       intro h3
       refine ⟨?_, by simp⟩
       rcases hr₀ h3 with h | h
       · exact Or.inl ⟨h, by simp⟩
       · exact Or.inr h⟩
  have hmeas : drainMeasure store (getPendingRequests store) < drainFuel store := by
    simp only [drainMeasure, drainFuel, getPendingRequests_length]
    omega
  exact drainLoop_spec oracle store.length r₀ (drainFuel store) store
    (getPendingRequests store) [] 0 [] inv hmeas

section SingletonDrains

theorem getItem_cons_self (r : OfflineRequest) (rest : Store) :
    getItem (r :: rest) r.id = some r := by
  unfold getItem
  rw [List.find?_cons_of_pos rest (by simp)]

theorem updateRequestRetry_singleton (r : OfflineRequest) (n : Nat) :
    updateRequestRetry [r] r.id n = [{ r with retries := n }] := by
  rw [updateRequestRetry_eq_map (getItem_cons_self r [])]
  simp

theorem getPendingRequests_singleton (r : OfflineRequest) :
    getPendingRequests [r] = [r] := by
  simp [getPendingRequests]

theorem drainFuel_singleton (r : OfflineRequest) : drainFuel [r] = 4 := by
  simp [drainFuel]

/-- One drain over a single-request store whose replay fails: the request
stays stored with its retry counter incremented, and exactly one failed
attempt is made. -/
theorem sync_singleton_fail (r : OfflineRequest) (e : ApiError)
    (h : r.retries < 3) :
    syncPendingRequests (fun _ => Except.error e) [r] =
      some ⟨[{ r with retries := r.retries + 1 }], [(r, false)], 0⟩ := by
  unfold syncPendingRequests
  rw [drainFuel_singleton, getPendingRequests_singleton]
  rw [show (4 : Nat) = 3 + 1 from rfl]
  rw [drainLoop_failure (by omega) (by simp) (by omega) (getItem_cons_self r []) rfl]
  rw [updateRequestRetry_singleton, List.nil_append]
  rw [show (3 : Nat) = 2 + 1 from rfl]
  exact drainLoop_nil

/-- One drain over a single-request store whose request has exhausted its
retry budget: the request is deleted without any gateway attempt,
whatever the oracle would answer. -/
theorem sync_singleton_exhausted (oracle : ReplayOracle) (r : OfflineRequest)
    (h : 3 ≤ r.retries) :
    syncPendingRequests oracle [r] = some ⟨[], [], 0⟩ := by
  unfold syncPendingRequests
  rw [drainFuel_singleton, getPendingRequests_singleton]
  rw [show (4 : Nat) = 3 + 1 from rfl]
  rw [drainLoop_exhausted (by omega) (by simp) h]
  rw [show removeRequest [r] r.id = [] by simp [removeRequest]]
  rw [show getPendingRequests ([] : Store) = [] from rfl]
  rw [show (3 : Nat) = 2 + 1 from rfl]
  exact drainLoop_nil

end SingletonDrains

/-- Process-wide state of the `OfflineService` singleton: the connectivity
flag, the `syncInProgress` single-flight guard and the queue store. -/
structure EngineState where
  isOnline : Bool
  syncInProgress : Bool
  queueStore : Store
deriving Repr, DecidableEq

/-- `OfflineService.syncPendingRequests` with its single-flight guard: if a
drain is already marked in progress the call returns at once (no attempt is
made, no store is touched, no callback fires); otherwise the guard is set,
the drain runs, the `finally` clears the guard and `notifySyncComplete`
fires the registered callbacks once.  The returned numbers are the gateway
attempts made and how many times the callback list was notified.  The
`getD` fallback is unreachable: `syncPendingRequests_spec` shows the fuel
suffices. -/
def syncEntry (oracle : ReplayOracle) (st : EngineState) :
    EngineState × List Attempt × Nat :=
  if st.syncInProgress then (st, [], 0)
  else
    let out := (syncPendingRequests oracle st.queueStore).getD ⟨st.queueStore, [], 0⟩
    ({ st with queueStore := out.store, syncInProgress := false }, out.trace, 1)

/-- Placeholder request used to instantiate the distinguished record of
`syncPendingRequests_spec` when no retry-exhausted record is tracked. -/
def dummyRequest : OfflineRequest :=
  ⟨"", "", "", [], none, 0, 0, RequestKind.api⟩

/-- Claim C1 (FIFO replay): in a drain pass over a store with unique ids,
the requests handed to the gateway form a sequence whose `timestamp`
(`createdAt`) values are non-decreasing — `getPendingRequests` sorts
ascending by timestamp and each iteration attempts the head of the current
sorted list, so no later-enqueued request is replayed before an
earlier-enqueued one. -/
theorem c1_fifo_replay (oracle : ReplayOracle) (store : Store)
    (hnd : (store.map (fun r => r.id)).Nodup) :
    ∃ out : DrainOut,
      syncPendingRequests oracle store = some out ∧
      List.Sorted tsLE (out.trace.map Prod.fst) := by
  obtain ⟨out, heq, hsorted, _⟩ :=
    syncPendingRequests_spec oracle store dummyRequest hnd
      (fun h => by simp [dummyRequest] at h)
  exact ⟨out, heq, hsorted⟩

/-- Success oracle used by concrete witnesses. -/
def okOracleW : ReplayOracle := fun _ => Except.ok "response"

/-- Failure oracle used by concrete witnesses and counterexamples. -/
def failOracleW : ReplayOracle := fun _ => Except.error ⟨"HTTP error! status: 500", 500⟩

/-- Concrete queued request used by witnesses. -/
def reqW (i : String) (ts retries : Nat) : OfflineRequest :=
  ⟨i, "/price-reports", "POST", [], none, ts, retries, RequestKind.api⟩

theorem c1_fifo_replay_witness :
    ∃ out : DrainOut,
      syncPendingRequests okOracleW [reqW "b" 2 0, reqW "a" 1 0] = some out ∧
      List.Sorted tsLE (out.trace.map Prod.fst) :=
  c1_fifo_replay okOracleW [reqW "b" 2 0, reqW "a" 1 0] (by decide)

/-- Claim C2 (amended): a single-request store whose replay fails on every
attempt keeps the request, with its retry counter incremented, after
failed attempts 1, 2 and also 3 (not deleted immediately after the third
failure, as the unamended claim states); the next drain pass after the
third failure then deletes it without handing it to the gateway again, so
the request receives exactly 3 replay attempts in total. -/
theorem c2_at_most_three_retries (r : OfflineRequest) (e : ApiError)
    (h : r.retries = 0) :
    syncPendingRequests (fun _ => Except.error e) [r] =
      some ⟨[{ r with retries := 1 }], [(r, false)], 0⟩ ∧
    syncPendingRequests (fun _ => Except.error e) [{ r with retries := 1 }] =
      some ⟨[{ r with retries := 2 }], [({ r with retries := 1 }, false)], 0⟩ ∧
    syncPendingRequests (fun _ => Except.error e) [{ r with retries := 2 }] =
      some ⟨[{ r with retries := 3 }], [({ r with retries := 2 }, false)], 0⟩ ∧
    syncPendingRequests (fun _ => Except.error e) [{ r with retries := 3 }] =
      some ⟨[], [], 0⟩ := by
  refine ⟨?_, ?_, ?_, ?_⟩
  · simpa [h] using sync_singleton_fail r e (by omega)
  · simpa using sync_singleton_fail { r with retries := 1 } e (by simp)
  · simpa using sync_singleton_fail { r with retries := 2 } e (by simp)
  · exact sync_singleton_exhausted _ _ (by simp)

theorem c2_at_most_three_retries_witness :
    syncPendingRequests (fun _ => Except.error (⟨"HTTP error! status: 500", 500⟩ : ApiError))
        [reqW "a" 5 0] =
      some ⟨[{ reqW "a" 5 0 with retries := 1 }], [(reqW "a" 5 0, false)], 0⟩ ∧
    syncPendingRequests (fun _ => Except.error (⟨"HTTP error! status: 500", 500⟩ : ApiError))
        [{ reqW "a" 5 0 with retries := 1 }] =
      some ⟨[{ reqW "a" 5 0 with retries := 2 }],
        [({ reqW "a" 5 0 with retries := 1 }, false)], 0⟩ ∧
    syncPendingRequests (fun _ => Except.error (⟨"HTTP error! status: 500", 500⟩ : ApiError))
        [{ reqW "a" 5 0 with retries := 2 }] =
      some ⟨[{ reqW "a" 5 0 with retries := 3 }],
        [({ reqW "a" 5 0 with retries := 2 }, false)], 0⟩ ∧
    syncPendingRequests (fun _ => Except.error (⟨"HTTP error! status: 500", 500⟩ : ApiError))
        [{ reqW "a" 5 0 with retries := 3 }] =
      some ⟨[], [], 0⟩ :=
  c2_at_most_three_retries (reqW "a" 5 0) ⟨"HTTP error! status: 500", 500⟩ rfl

/-- One failing drain pass, keeping only the resulting store. -/
def drainStoreOnce (store : Store) : Option Store :=
  (syncPendingRequests failOracleW store).map (fun out => out.store)

/-- Claim C2 counterexample: starting from the freshly queued request
`reqW "a" 5 0` and replaying it through three drain passes that all fail,
the request is still present in the store (with `retries = 3`) after the
third failed attempt — the claim says it should be absent at that point. -/
theorem c2_counterexample :
    (drainStoreOnce [reqW "a" 5 0] >>= drainStoreOnce >>= drainStoreOnce) =
      some [⟨"a", "/price-reports", "POST", [], none, 5, 3, RequestKind.api⟩] := by
  decide

/-- Claim C3 (single-flight drain): invoking the drain entry point while
`syncInProgress` is set returns immediately: the engine state (including
every store) is unchanged, no gateway attempt is made, and the sync
callbacks are not notified. -/
theorem c3_single_flight_drain (oracle : ReplayOracle) (st : EngineState)
    (h : st.syncInProgress = true) :
    syncEntry oracle st = (st, [], 0) := by
  simp [syncEntry, h]

theorem c3_single_flight_drain_witness :
    syncEntry okOracleW ⟨true, true, [reqW "a" 1 0]⟩ = (⟨true, true, [reqW "a" 1 0]⟩, [], 0) :=
  c3_single_flight_drain okOracleW ⟨true, true, [reqW "a" 1 0]⟩ rfl

/-- Claim C4 (amended): during a drain pass retry counters never decrease,
and a stored request whose `retries` has reached 3 is deleted by the next
drain pass without any further gateway attempt, provided the drain reaches
it — in particular whenever the store holds at most 50 requests.  (A drain
that ends early at the 50-successful-request cap can leave such a request
in the store; see the counterexample.) -/
theorem c4_retry_exhaustion (oracle : ReplayOracle) (store : Store)
    (r₀ : OfflineRequest)
    (hnd : (store.map (fun r => r.id)).Nodup)
    (hmem : r₀ ∈ store) (hret : 3 ≤ r₀.retries) (hlen : store.length ≤ 50) :
    ∃ out : DrainOut,
      syncPendingRequests oracle store = some out ∧
      (∀ i r r', getItem store i = some r → getItem out.store i = some r' →
        r.retries ≤ r'.retries) ∧
      r₀.id ∉ out.store.map (fun r => r.id) ∧
      (∀ a ∈ out.trace, a.1.id ≠ r₀.id) := by
  obtain ⟨out, heq, _, _, _, _, hmono, hexh⟩ :=
    syncPendingRequests_spec oracle store r₀ hnd
      (fun _ => Or.inl (mem_getItem hnd hmem))
  obtain ⟨hout, htr⟩ := hexh hret hlen
  exact ⟨out, heq, hmono, hout, htr⟩

theorem c4_retry_exhaustion_witness :
    ∃ out : DrainOut,
      syncPendingRequests okOracleW [reqW "x" 1 3] = some out ∧
      (∀ i r r', getItem [reqW "x" 1 3] i = some r → getItem out.store i = some r' →
        r.retries ≤ r'.retries) ∧
      (reqW "x" 1 3).id ∉ out.store.map (fun r => r.id) ∧
      (∀ a ∈ out.trace, a.1.id ≠ (reqW "x" 1 3).id) :=
  c4_retry_exhaustion okOracleW [reqW "x" 1 3] (reqW "x" 1 3) (by decide)
    (by decide) (by decide) (by decide)

/-- A store of 50 fresh requests (timestamps 0..49) followed by one
retry-exhausted request with the largest timestamp. -/
def c4cexStore : Store :=
  ((List.range 50).map (fun i =>
    ⟨"q" ++ toString i, "/price-reports", "POST", [], none, i, 0, RequestKind.api⟩)) ++
  [⟨"x", "/price-reports", "POST", [], none, 100, 3, RequestKind.api⟩]

/-- Claim C4 counterexample: with 50 fresh requests ahead of it that all
replay successfully, the drain stops at the 50-successful-request cap and
the retry-exhausted request `"x"` (with `retries = 3`) is still in the
store after the drain pass — the claim says no such request may remain. -/
theorem c4_counterexample :
    (syncPendingRequests okOracleW c4cexStore).map
      (fun out => (out.store.map (fun r => (r.id, r.retries)), out.count)) =
      some ([("x", 3)], 50) := by
  decide

/-- Claim C6 (bounded drain): every drain call terminates (the fuel chosen
by the entry point is never exhausted), and the number of
successfully-processed requests in one drain never exceeds 50: the
`processedCount` is exactly the number of successful attempts in the
trace, and it stays at most 50. -/
theorem c6_bounded_drain (oracle : ReplayOracle) (store : Store)
    (hnd : (store.map (fun r => r.id)).Nodup) :
    ∃ out : DrainOut,
      syncPendingRequests oracle store = some out ∧
      out.count ≤ 50 ∧
      out.count = out.trace.countP (fun a => a.2) := by
  obtain ⟨out, heq, _, hcle, hctr, _⟩ :=
    syncPendingRequests_spec oracle store dummyRequest hnd
      (fun h => by simp [dummyRequest] at h)
  exact ⟨out, heq, hcle, hctr⟩

theorem c6_bounded_drain_witness :
    ∃ out : DrainOut,
      syncPendingRequests okOracleW [reqW "a" 1 0] = some out ∧
      out.count ≤ 50 ∧
      out.count = out.trace.countP (fun a => a.2) :=
  c6_bounded_drain okOracleW [reqW "a" 1 0] (by decide)

/-! ### The request gateway and the enqueue path (`ApiClient`) -/

/-- Outcome of the underlying `CapacitorHttp.request` call: either a
response with an HTTP status and a body (kept opaque as a string), or a
transport-level failure (the promise rejected). -/
inductive HttpOutcome where
  | response (status : Nat) (data : String)
  | transportFailure
deriving Repr, DecidableEq

/-- `ApiClient.directRequest`: performs the call; a status outside
200..299 is raised as an `ApiError` carrying that status, a transport
failure as an `ApiError` with status 0 (the inner `ApiError` passes the
outer `catch` unchanged via the `instanceof` test). -/
def directRequest : HttpOutcome → Except ApiError String
  | .response status data =>
      if status < 200 ∨ 300 ≤ status then
        Except.error ⟨"HTTP error! status: " ++ toString status, status⟩
      else Except.ok data
  | .transportFailure => Except.error ⟨"Network error occurred", 0⟩

/-- `OfflineService.generateId`:
`req_` followed by the clock value and a random suffix. -/
def generateId (now : Nat) (rand : String) : String :=
  "req_" ++ toString now ++ "_" ++ rand

/-- `OfflineService.queueRequest`: build the record with a fresh id,
`timestamp = Date.now()` and `retries = 0`, then write it to the queue
store (`writeOk` tells whether the storage write succeeds) and return the
id. -/
def queueRequest (writeOk : Bool) (store : Store) (now : Nat) (rand : String)
    (endpoint method : String) (headers : List (String × String))
    (body : Option String) (kind : RequestKind) :
    Except StorageError (String × Store) :=
  let offlineRequest : OfflineRequest :=
    ⟨generateId now rand, endpoint, method, headers, body, now, 0, kind⟩
  if writeOk then Except.ok (offlineRequest.id, setItem store offlineRequest)
  else Except.error ⟨"setItem failed"⟩

/-- The acknowledgement object returned by
`ApiClient.handleOfflineRequest` when queuing succeeds. -/
structure QueuedAck where
  success : Bool
  message : String
  requestId : String
  offline : Bool
deriving Repr, DecidableEq

/-- `ApiClient.handleOfflineRequest`: queue the request and acknowledge
immediately; a storage failure is wrapped into an `ApiError` with status 0
and re-raised to the caller. -/
def handleOfflineRequest (writeOk : Bool) (store : Store) (now : Nat) (rand : String)
    (endpoint method : String) (headers : List (String × String))
    (body : Option String) :
    Except ApiError (QueuedAck × Store) :=
  match queueRequest writeOk store now rand endpoint method headers body RequestKind.api with
  | .ok (requestId, store') =>
      Except.ok (⟨true, "Request queued for offline execution", requestId, true⟩, store')
  | .error _ => Except.error ⟨"Failed to queue offline request", 0⟩

/-- Result observed by a caller of `ApiClient.request`: either the body of
a direct gateway response or a queued acknowledgement. -/
inductive RequestResult where
  | body (data : String)
  | queuedAck (ack : QueuedAck)
deriving Repr, DecidableEq

/-- `ApiClient.request`: the offline queue is used only when the request
is `offlineable` and the client is offline; every other request goes
straight through `directRequest`. -/
def request (offlineable online writeOk : Bool) (outcome : HttpOutcome)
    (store : Store) (now : Nat) (rand : String)
    (endpoint method : String) (headers : List (String × String))
    (body : Option String) :
    Except ApiError RequestResult × Store :=
  if offlineable && !online then
    match handleOfflineRequest writeOk store now rand endpoint method headers body with
    | .ok (ack, store') => (Except.ok (RequestResult.queuedAck ack), store')
    | .error e => (Except.error e, store)
  else
    ((directRequest outcome).map RequestResult.body, store)

theorem setItem_not_mem {store : Store} {r : OfflineRequest}
    (h : r.id ∉ store.map (fun x => x.id)) : setItem store r = store ++ [r] := by
  unfold setItem
  rw [if_neg]
  intro hc
  rcases List.any_eq_true.mp hc with ⟨x, hx, hbeq⟩
  exact h (List.mem_map.mpr ⟨x, hx, by simpa using hbeq⟩)

theorem getItem_append_fresh (store : Store) (r : OfflineRequest)
    (h : r.id ∉ store.map (fun x => x.id)) :
    getItem (store ++ [r]) r.id = some r := by
  induction store with
  | nil => simpa using getItem_cons_self r []
  | cons x xs ih =>
    have hx : ¬ x.id = r.id := fun he =>
      h (by rw [List.map_cons]; exact List.mem_cons.mpr (Or.inl he.symm))
    rw [List.cons_append]
    unfold getItem
    rw [List.find?_cons_of_neg _ (by simp [hx])]
    exact ih (fun hm => h (List.mem_cons_of_mem _ hm))

/-- Claim C7 (enqueue semantics): an offlineable request submitted while
offline is acknowledged immediately with the freshly generated request id;
the stored record carries `retries = 0` and `timestamp` equal to the
enqueue clock; queuing involves no gateway call (the result does not
depend on the network outcome); and a storage failure is surfaced
synchronously as an `ApiError` with status 0 while the store is returned
unchanged. -/
theorem c7_enqueue_semantics (store : Store) (now : Nat) (rand : String)
    (endpoint method : String) (headers : List (String × String))
    (body : Option String)
    (hfresh : generateId now rand ∉ store.map (fun r => r.id)) :
    (∃ store',
      handleOfflineRequest true store now rand endpoint method headers body =
        Except.ok (⟨true, "Request queued for offline execution",
          generateId now rand, true⟩, store') ∧
      getItem store' (generateId now rand) =
        some ⟨generateId now rand, endpoint, method, headers, body, now, 0,
          RequestKind.api⟩) ∧
    (handleOfflineRequest false store now rand endpoint method headers body =
      Except.error ⟨"Failed to queue offline request", 0⟩) ∧
    (∀ o₁ o₂ : HttpOutcome, ∀ writeOk : Bool,
      request true false writeOk o₁ store now rand endpoint method headers body =
      request true false writeOk o₂ store now rand endpoint method headers body) ∧
    (request true false false HttpOutcome.transportFailure store now rand
        endpoint method headers body =
      (Except.error ⟨"Failed to queue offline request", 0⟩, store)) := by
  refine ⟨⟨setItem store
      ⟨generateId now rand, endpoint, method, headers, body, now, 0, RequestKind.api⟩,
      rfl, ?_⟩, rfl, fun o₁ o₂ writeOk => rfl, rfl⟩
  rw [setItem_not_mem hfresh]
  exact getItem_append_fresh store _ hfresh

theorem c7_enqueue_semantics_witness :
    (∃ store',
      handleOfflineRequest true [] 5 "z" "/price-reports" "POST" [] (some "b") =
        Except.ok (⟨true, "Request queued for offline execution",
          generateId 5 "z", true⟩, store') ∧
      getItem store' (generateId 5 "z") =
        some ⟨generateId 5 "z", "/price-reports", "POST", [], some "b", 5, 0,
          RequestKind.api⟩) ∧
    (handleOfflineRequest false [] 5 "z" "/price-reports" "POST" [] (some "b") =
      Except.error ⟨"Failed to queue offline request", 0⟩) ∧
    (∀ o₁ o₂ : HttpOutcome, ∀ writeOk : Bool,
      request true false writeOk o₁ [] 5 "z" "/price-reports" "POST" [] (some "b") =
      request true false writeOk o₂ [] 5 "z" "/price-reports" "POST" [] (some "b")) ∧
    (request true false false HttpOutcome.transportFailure [] 5 "z"
        "/price-reports" "POST" [] (some "b") =
      (Except.error ⟨"Failed to queue offline request", 0⟩, [])) :=
  c7_enqueue_semantics [] 5 "z" "/price-reports" "POST" [] (some "b") (by decide)

/-- Claim C8 (gateway error surfacing): a response status outside 200..299
is raised as a typed error carrying that status, a transport failure as a
typed error with status 0; during replay the drain handles any two
failures identically (it observes only success versus failure), and a
failed replay leaves the request stored with its retry counter
incremented. -/
theorem c8_gateway_error_surfacing :
    (∀ status data, status < 200 ∨ 300 ≤ status →
      directRequest (HttpOutcome.response status data) =
        Except.error ⟨"HTTP error! status: " ++ toString status, status⟩) ∧
    (directRequest HttpOutcome.transportFailure =
      Except.error ⟨"Network error occurred", 0⟩) ∧
    (∀ o₁ o₂ : ReplayOracle, (∀ i, replayOk (o₁ i) = replayOk (o₂ i)) →
      ∀ fuel store pending processed count trace,
        drainLoop o₁ fuel store pending processed count trace =
        drainLoop o₂ fuel store pending processed count trace) ∧
    (∀ (r : OfflineRequest) (e : ApiError), r.retries < 3 →
      syncPendingRequests (fun _ => Except.error e) [r] =
        some ⟨[{ r with retries := r.retries + 1 }], [(r, false)], 0⟩) := by
  refine ⟨?_, rfl, ?_, ?_⟩
  · intro status data h
    rw [show directRequest (HttpOutcome.response status data) =
      (if status < 200 ∨ 300 ≤ status then
        Except.error ⟨"HTTP error! status: " ++ toString status, status⟩
      else Except.ok data) from rfl, if_pos h]
  · intro o₁ o₂ h
    exact drainLoop_oracle_congr h
  · intro r e h
    exact sync_singleton_fail r e h

/-- A transport-failure oracle, used to witness that an HTTP-status error
and a transport error lead to identical drains. -/
def transportOracleW : ReplayOracle := fun _ => Except.error ⟨"Network error occurred", 0⟩

theorem c8_gateway_error_surfacing_witness :
    (directRequest (HttpOutcome.response 404 "nf") =
      Except.error ⟨"HTTP error! status: " ++ toString 404, 404⟩) ∧
    (drainLoop failOracleW (drainFuel [reqW "a" 1 0]) [reqW "a" 1 0]
        (getPendingRequests [reqW "a" 1 0]) [] 0 [] =
      drainLoop transportOracleW (drainFuel [reqW "a" 1 0]) [reqW "a" 1 0]
        (getPendingRequests [reqW "a" 1 0]) [] 0 []) ∧
    (syncPendingRequests (fun _ => Except.error (⟨"HTTP error! status: 500", 500⟩ : ApiError))
        [reqW "a" 1 0] =
      some ⟨[{ reqW "a" 1 0 with retries := (reqW "a" 1 0).retries + 1 }],
        [(reqW "a" 1 0, false)], 0⟩) :=
  ⟨c8_gateway_error_surfacing.1 404 "nf" (by omega),
   c8_gateway_error_surfacing.2.2.1 failOracleW transportOracleW (fun _ => rfl)
     (drainFuel [reqW "a" 1 0]) [reqW "a" 1 0] (getPendingRequests [reqW "a" 1 0]) [] 0 [],
   c8_gateway_error_surfacing.2.2.2 (reqW "a" 1 0) ⟨"HTTP error! status: 500", 500⟩
     (by decide)⟩

/-- Claim C10 (non-offlineable requests are never queued): with the
`offlineable` option false, the request always takes the direct gateway
path whatever the connectivity: the store is unchanged, no queued
acknowledgement can be returned, and a bad status is surfaced as a typed
error carrying it. -/
theorem c10_non_offlineable (online writeOk : Bool) (outcome : HttpOutcome)
    (store : Store) (now : Nat) (rand : String)
    (endpoint method : String) (headers : List (String × String))
    (body : Option String) :
    request false online writeOk outcome store now rand endpoint method headers body =
      ((directRequest outcome).map RequestResult.body, store) ∧
    (∀ ack : QueuedAck,
      (request false online writeOk outcome store now rand endpoint method
        headers body).1 ≠ Except.ok (RequestResult.queuedAck ack)) ∧
    (∀ status data, status < 200 ∨ 300 ≤ status →
      (request false online writeOk (HttpOutcome.response status data) store now rand
        endpoint method headers body).1 =
        Except.error ⟨"HTTP error! status: " ++ toString status, status⟩) := by
  have hfirst : ∀ o : HttpOutcome,
      request false online writeOk o store now rand endpoint method headers body =
      ((directRequest o).map RequestResult.body, store) := by
    intro o
    unfold request
    rw [if_neg (by simp)]
  refine ⟨hfirst outcome, ?_, ?_⟩
  · intro ack
    rw [hfirst outcome]
    cases directRequest outcome with
    | ok d => simp [Except.map]
    | error e => simp [Except.map]
  · intro status data h
    rw [hfirst (HttpOutcome.response status data)]
    have : directRequest (HttpOutcome.response status data) =
        Except.error ⟨"HTTP error! status: " ++ toString status, status⟩ := by
      rw [show directRequest (HttpOutcome.response status data) =
        (if status < 200 ∨ 300 ≤ status then
          Except.error ⟨"HTTP error! status: " ++ toString status, status⟩
        else Except.ok data) from rfl, if_pos h]
    rw [this]
    rfl

theorem c10_non_offlineable_witness :
    request false false true (HttpOutcome.response 500 "boom") [] 5 "z"
        "/price-reports" "POST" [] none =
      ((directRequest (HttpOutcome.response 500 "boom")).map RequestResult.body, []) ∧
    (∀ ack : QueuedAck,
      (request false false true (HttpOutcome.response 500 "boom") [] 5 "z"
        "/price-reports" "POST" [] none).1 ≠ Except.ok (RequestResult.queuedAck ack)) ∧
    (∀ status data, status < 200 ∨ 300 ≤ status →
      (request false false true (HttpOutcome.response status data) [] 5 "z"
        "/price-reports" "POST" [] none).1 =
        Except.error ⟨"HTTP error! status: " ++ toString status, status⟩) :=
  c10_non_offlineable false true (HttpOutcome.response 500 "boom") [] 5 "z"
    "/price-reports" "POST" [] none

/-! ### Reconciliation of offline report images (`OfflineService`) -/

/-- One item of the report returned by the server after a successful
create-report replay: the real database id together with the client
temp id echoed back (absent for items that carried none). -/
structure SavedItem where
  id : Nat
  tempId : Option String
deriving Repr, DecidableEq

/-- The report returned by the server for a replayed `POST /price-reports`. -/
structure SavedReport where
  id : Nat
  items : List SavedItem
deriving Repr, DecidableEq

/-- One image stored inside an offline report image group. -/
structure GroupImage where
  tempId : String
  base64Data : String
  fileName : String
  description : Option String
deriving Repr, DecidableEq

/-- The `OfflineReportImages` record of the `offline_report_images`
store. -/
structure OfflineReportImages where
  id : String
  tempIds : List String
  images : List GroupImage
  timestamp : Nat
deriving Repr, DecidableEq

/-- Metadata of one uploaded image (`{ itemId, description }`). -/
structure UploadMeta where
  itemId : Nat
  description : String
deriving Repr, DecidableEq

/-- The JS default `storedImage.description || msg`: an absent or empty
description falls back to the default message. -/
def descriptionOrDefault (d : Option String) (itemId : Nat) : String :=
  match d with
  | some s => if s == "" then "Image for item " ++ toString itemId else s
  | none => "Image for item " ++ toString itemId

/-- The body of the `map` in `uploadImagesForSyncedReport`: find the item
of the saved report whose echoed temp id matches the stored image and
build the upload metadata with the real database id; unmatched images
yield `null` (logged and skipped). -/
def matchMeta (savedReport : SavedReport) (img : GroupImage) : Option UploadMeta :=
  (savedReport.items.find? (fun item => item.tempId == some img.tempId)).map
    (fun dbItem => ⟨dbItem.id, descriptionOrDefault img.description dbItem.id⟩)

/-- Errors `uploadImagesForSyncedReport` can raise: no access token in
local storage, or the batch upload itself failing. -/
inductive UploadError where
  | noToken
  | uploadFailed (e : ApiError)
deriving Repr, DecidableEq

/-- Observable effect of one reconciliation: the metadata of the images
actually uploaded and the ids of the asset groups deleted. -/
structure ReconcileResult where
  uploaded : List UploadMeta
  removedGroups : List String
deriving Repr, DecidableEq

/-- `OfflineService.uploadImagesForSyncedReport`: an empty group returns
at once (and is not deleted); otherwise the images are matched against the
saved report items, unmatched ones are skipped; with no valid image the
group is deleted anyway; with at least one, the token is required and the
batch is uploaded, and on success the group is deleted.  `hasToken` and
`uploadResult` stand for the local-storage token read and the
`apiClient.uploadImages` outcome. -/
def uploadImagesForSyncedReport (hasToken : Bool) (uploadResult : Except ApiError Unit)
    (savedReport : SavedReport) (storedImages : OfflineReportImages) :
    Except UploadError ReconcileResult :=
  if storedImages.images.isEmpty then Except.ok ⟨[], []⟩
  else
    let imageMetadata := (storedImages.images.map (matchMeta savedReport)).reduceOption
    if imageMetadata.isEmpty then
      Except.ok ⟨[], [storedImages.id]⟩
    else if !hasToken then Except.error UploadError.noToken
    else
      match uploadResult with
      | .ok _ => Except.ok ⟨imageMetadata, [storedImages.id]⟩
      | .error e => Except.error (UploadError.uploadFailed e)

/-- The callback of the `reportImagesStore.iterate` in
`findStoredImagesByTempIds`: keep a group matching one of the searched
temp ids when none is held yet or when it is strictly older than the held
one. -/
def findStep (tempIds : List String) :
    Option OfflineReportImages → OfflineReportImages → Option OfflineReportImages
  | none, value =>
      if value.tempIds.any (fun t => tempIds.contains t) then some value else none
  | some f, value =>
      if value.tempIds.any (fun t => tempIds.contains t) then
        if value.timestamp < f.timestamp then some value else some f
      else some f

theorem findStep_none (tempIds : List String) (value : OfflineReportImages) :
    findStep tempIds none value =
      if value.tempIds.any (fun t => tempIds.contains t) then some value else none := rfl

theorem findStep_some (tempIds : List String) (f value : OfflineReportImages) :
    findStep tempIds (some f) value =
      if value.tempIds.any (fun t => tempIds.contains t) then
        if value.timestamp < f.timestamp then some value else some f
      else some f := rfl

/-- `OfflineService.findStoredImagesByTempIds`: iterate over all stored
groups and return the oldest one whose temp ids intersect the searched
ones. -/
def findStoredImagesByTempIds (groups : List OfflineReportImages)
    (tempIds : List String) : Option OfflineReportImages :=
  groups.foldl (findStep tempIds) none

/-- Temp ids extracted from the saved report items by
`findAndUploadReportImages` (`.map(item => item.tempId).filter(t => t)`:
the JS filter drops both absent and empty ids). -/
def reportTempIds (savedReport : SavedReport) : List String :=
  (savedReport.items.filterMap (fun item => item.tempId)).filter (fun t => !(t == ""))

/-- `OfflineService.findAndUploadReportImages`: nothing happens without
items or temp ids or a matching stored group; otherwise the single group
selected by `findStoredImagesByTempIds` is reconciled. -/
def findAndUploadReportImages (hasToken : Bool) (uploadResult : Except ApiError Unit)
    (groups : List OfflineReportImages) (savedReport : SavedReport) :
    Except UploadError ReconcileResult :=
  if savedReport.items.isEmpty then Except.ok ⟨[], []⟩
  else
    let tempIds := reportTempIds savedReport
    if tempIds.isEmpty then Except.ok ⟨[], []⟩
    else
      match findStoredImagesByTempIds groups tempIds with
      | some storedImages =>
          uploadImagesForSyncedReport hasToken uploadResult savedReport storedImages
      | none => Except.ok ⟨[], []⟩

/-- Effect of the `removeStoredReportImages` calls of one reconciliation
on the `offline_report_images` store. -/
def applyGroupRemovals (groups : List OfflineReportImages) (removed : List String) :
    List OfflineReportImages :=
  groups.filter (fun g => !(removed.contains g.id))

/-- `OfflineService.storeOfflineReportImages`: the stored group id is
`report_images_` plus the clock, its `tempIds` are exactly the temp ids of
its images, and each image file name is `item-` temp id `.jpg`.  Each
input triple is a temp id, the encoded file content and an optional
description. -/
def storeOfflineReportImages (now : Nat)
    (images : List (String × String × Option String)) : OfflineReportImages :=
  ⟨"report_images_" ++ toString now,
   images.map (fun img => img.1),
   images.map (fun img => ⟨img.1, img.2.1, "item-" ++ img.1 ++ ".jpg", img.2.2⟩),
   now⟩

/-- Groups written by `storeOfflineReportImages` satisfy the asset-group
invariant: `tempIds` is exactly the temp ids of the stored images. -/
theorem storeOfflineReportImages_tempIds (now : Nat)
    (images : List (String × String × Option String)) :
    (storeOfflineReportImages now images).tempIds =
      (storeOfflineReportImages now images).images.map (fun i => i.tempId) := by
  simp [storeOfflineReportImages]

theorem map_reduceOption_eq_filterMap (f : GroupImage → Option UploadMeta)
    (l : List GroupImage) : (l.map f).reduceOption = l.filterMap f := by
  induction l with
  | nil => rfl
  | cons x xs ih =>
    cases hx : f x with
    | none => simp [List.reduceOption_cons_of_none, hx, List.filterMap_cons, ih]
    | some m => simp [List.reduceOption_cons_of_some, hx, List.filterMap_cons, ih]

/-- Shared shape of a successful reconciliation of a nonempty group: the
matched images (and only those) are uploaded and the group is deleted —
also when nothing matched. -/
theorem uploadImagesForSyncedReport_eq (savedReport : SavedReport)
    (g : OfflineReportImages) (hne : g.images ≠ []) :
    uploadImagesForSyncedReport true (Except.ok ()) savedReport g =
      Except.ok ⟨g.images.filterMap (matchMeta savedReport), [g.id]⟩ := by
  unfold uploadImagesForSyncedReport
  rw [if_neg (by simpa using hne)]
  rw [map_reduceOption_eq_filterMap]
  by_cases hm : (g.images.filterMap (matchMeta savedReport)).isEmpty
  · rw [if_pos hm]
    have : g.images.filterMap (matchMeta savedReport) = [] := by simpa using hm
    rw [this]
  · rw [if_neg hm]
    rfl

/-- Every uploaded metadata entry comes from a stored image matched (by
temp id) to an item of the saved report, and carries the real
database id of that item. -/
theorem mem_filterMap_matchMeta {savedReport : SavedReport} {l : List GroupImage}
    {meta : UploadMeta} (hmeta : meta ∈ l.filterMap (matchMeta savedReport)) :
    ∃ img ∈ l, ∃ item ∈ savedReport.items,
      item.tempId = some img.tempId ∧ meta.itemId = item.id := by
  rcases List.mem_filterMap.mp hmeta with ⟨img, himg, hmm⟩
  unfold matchMeta at hmm
  cases hfind : savedReport.items.find? (fun item => item.tempId == some img.tempId) with
  | none => rw [hfind] at hmm; simp at hmm
  | some dbItem =>
    rw [hfind] at hmm
    simp only [Option.map_some'] at hmm
    have hit : dbItem ∈ savedReport.items := List.mem_of_find?_eq_some hfind
    have hp := List.find?_some hfind
    exact ⟨img, himg, dbItem, hit, by simpa using hp, by rw [← Option.some.inj hmm]⟩

/-- Claim C5 (partial reconciliation): for a successfully replayed
create-report request and a nonempty stored asset group, exactly the
matched images are converted and uploaded — every uploaded entry comes
from an image whose temp id matches a saved item, unmatched images are
skipped — and the group is deleted afterward, including when no image
matched at all (the metadata list is then empty and the group is still
removed). -/
theorem c5_partial_reconciliation (savedReport : SavedReport)
    (g : OfflineReportImages) (hne : g.images ≠ []) :
    uploadImagesForSyncedReport true (Except.ok ()) savedReport g =
      Except.ok ⟨g.images.filterMap (matchMeta savedReport), [g.id]⟩ ∧
    ∀ meta ∈ g.images.filterMap (matchMeta savedReport),
      ∃ img ∈ g.images, ∃ item ∈ savedReport.items,
        item.tempId = some img.tempId ∧ meta.itemId = item.id :=
  ⟨uploadImagesForSyncedReport_eq savedReport g hne,
   fun _ hmeta => mem_filterMap_matchMeta hmeta⟩

/-- Saved report used by reconciliation witnesses: item 42 echoes temp id
`t1`, item 43 carries none. -/
def reportW : SavedReport := ⟨7, [⟨42, some "t1"⟩, ⟨43, none⟩]⟩

/-- Stored group used by reconciliation witnesses: one image matched
(`t1`) and one unmatched (`t9`). -/
def groupW : OfflineReportImages :=
  ⟨"g1", ["t1", "t9"],
   [⟨"t1", "data1", "item-t1.jpg", none⟩, ⟨"t9", "data9", "item-t9.jpg", none⟩], 10⟩

theorem c5_partial_reconciliation_witness :
    uploadImagesForSyncedReport true (Except.ok ()) reportW groupW =
      Except.ok ⟨groupW.images.filterMap (matchMeta reportW), [groupW.id]⟩ ∧
    ∀ meta ∈ groupW.images.filterMap (matchMeta reportW),
      ∃ img ∈ groupW.images, ∃ item ∈ reportW.items,
        item.tempId = some img.tempId ∧ meta.itemId = item.id :=
  c5_partial_reconciliation reportW groupW (by decide)

/-- Specification of the `iterate` fold of `findStoredImagesByTempIds`:
a returned group either was the accumulator or is a matching member, it is
at most as old as every matching member and as the accumulator. -/
theorem findStep_foldl_spec (tempIds : List String) :
    ∀ (groups : List OfflineReportImages) (acc : Option OfflineReportImages)
      (g : OfflineReportImages),
      groups.foldl (findStep tempIds) acc = some g →
      (acc = some g ∨ (g ∈ groups ∧
        (g.tempIds.any (fun t => tempIds.contains t)) = true)) ∧
      (∀ g' ∈ groups, (g'.tempIds.any (fun t => tempIds.contains t)) = true →
        g.timestamp ≤ g'.timestamp) ∧
      (∀ a, acc = some a → g.timestamp ≤ a.timestamp) := by
  intro groups
  induction groups with
  | nil =>
    intro acc g h
    rw [List.foldl_nil] at h
    refine ⟨Or.inl h, by simp, fun a ha => ?_⟩
    rw [h] at ha
    rw [Option.some.inj ha]
  | cons v rest ih =>
    intro acc g h
    rw [List.foldl_cons] at h
    obtain ⟨hacc, hmin, hprev⟩ := ih (findStep tempIds acc v) g h
    have hstep : ∀ b, findStep tempIds acc v = some b →
        (b = v ∧ (v.tempIds.any (fun t => tempIds.contains t)) = true) ∨ acc = some b := by
      intro b hb
      by_cases hv : (v.tempIds.any (fun t => tempIds.contains t)) = true
      · cases acc with
        | none =>
          rw [findStep_none, if_pos hv] at hb
          exact Or.inl ⟨(Option.some.inj hb).symm, hv⟩
        | some f =>
          rw [findStep_some, if_pos hv] at hb
          by_cases hlt : v.timestamp < f.timestamp
          · rw [if_pos hlt] at hb
            exact Or.inl ⟨(Option.some.inj hb).symm, hv⟩
          · rw [if_neg hlt] at hb
            exact Or.inr hb
      · cases acc with
        | none =>
          rw [findStep_none, if_neg hv] at hb
          cases hb
        | some f =>
          rw [findStep_some, if_neg hv] at hb
          exact Or.inr hb
    refine ⟨?_, ?_, ?_⟩
    · rcases hacc with hacc | ⟨hmem, hmat⟩
      · rcases hstep g hacc with ⟨rfl, hmat⟩ | hacc'
        · exact Or.inr ⟨List.mem_cons_self _ _, hmat⟩
        · exact Or.inl hacc'
      · exact Or.inr ⟨List.mem_cons_of_mem _ hmem, hmat⟩
    · intro g' hg' hmat'
      rcases List.mem_cons.mp hg' with rfl | hg'
      · -- the head itself matches: the step result is at most as old
        cases acc with
        | none =>
          rw [findStep_none, if_pos hmat'] at hprev
          exact hprev g' rfl
        | some f =>
          rw [findStep_some, if_pos hmat'] at hprev
          by_cases hlt : g'.timestamp < f.timestamp
          · rw [if_pos hlt] at hprev
            exact hprev g' rfl
          · rw [if_neg hlt] at hprev
            exact le_trans (hprev f rfl) (by omega)
      · exact hmin g' hg' hmat'
    · intro a ha
      subst ha
      rw [findStep_some] at hprev
      by_cases hv : (v.tempIds.any (fun t => tempIds.contains t)) = true
      · rw [if_pos hv] at hprev
        by_cases hlt : v.timestamp < a.timestamp
        · rw [if_pos hlt] at hprev
          exact le_trans (hprev v rfl) (by omega)
        · rw [if_neg hlt] at hprev
          exact hprev a rfl
      · rw [if_neg hv] at hprev
        exact hprev a rfl

/-- Claim C9 (single group consumed per replay): when several stored asset
groups intersect the synced report temp ids, the group selected by the
replay is a matching one with minimal timestamp; reconciliation uploads
only the matched images of that group and deletes only that group, leaving
every other group untouched in the store. -/
theorem c9_single_group_consumed (groups : List OfflineReportImages)
    (savedReport : SavedReport) (g : OfflineReportImages)
    (hinv : ∀ gr ∈ groups, gr.tempIds = gr.images.map (fun i => i.tempId))
    (hfound : findStoredImagesByTempIds groups (reportTempIds savedReport) = some g) :
    g ∈ groups ∧
    (g.tempIds.any (fun t => (reportTempIds savedReport).contains t)) = true ∧
    (∀ g' ∈ groups,
      (g'.tempIds.any (fun t => (reportTempIds savedReport).contains t)) = true →
      g.timestamp ≤ g'.timestamp) ∧
    findAndUploadReportImages true (Except.ok ()) groups savedReport =
      Except.ok ⟨g.images.filterMap (matchMeta savedReport), [g.id]⟩ ∧
    (∀ g' ∈ groups, g'.id ≠ g.id → g' ∈ applyGroupRemovals groups [g.id]) := by
  obtain ⟨hacc, hmin, _⟩ :=
    findStep_foldl_spec (reportTempIds savedReport) groups none g hfound
  rcases hacc with hacc | ⟨hmem, hmat⟩
  · simp at hacc
  have htne : reportTempIds savedReport ≠ [] := by
    rcases List.any_eq_true.mp hmat with ⟨t, _, hc⟩
    intro h0
    rw [h0] at hc
    simp [List.contains] at hc
  have hine : ¬ savedReport.items.isEmpty = true := by
    intro h0
    have : savedReport.items = [] := by simpa using h0
    apply htne
    simp [reportTempIds, this]
  have hgimg : g.images ≠ [] := by
    rcases List.any_eq_true.mp hmat with ⟨t, ht, _⟩
    intro h0
    rw [hinv g hmem, h0] at ht
    simp at ht
  refine ⟨hmem, hmat, hmin, ?_, ?_⟩
  · unfold findAndUploadReportImages
    rw [if_neg hine, if_neg (by simpa using htne), hfound]
    exact uploadImagesForSyncedReport_eq savedReport g hgimg
  · intro g' hg' hne'
    unfold applyGroupRemovals
    refine List.mem_filter.mpr ⟨hg', ?_⟩
    simp [List.contains, hne']

/-- A second stored group, younger than `groupW`, also matching `t1`. -/
def groupW2 : OfflineReportImages :=
  ⟨"g2", ["t1"], [⟨"t1", "data1b", "item-t1.jpg", none⟩], 20⟩

theorem c9_single_group_consumed_witness :
    groupW ∈ [groupW2, groupW] ∧
    (groupW.tempIds.any (fun t => (reportTempIds reportW).contains t)) = true ∧
    (∀ g' ∈ [groupW2, groupW],
      (g'.tempIds.any (fun t => (reportTempIds reportW).contains t)) = true →
      groupW.timestamp ≤ g'.timestamp) ∧
    findAndUploadReportImages true (Except.ok ()) [groupW2, groupW] reportW =
      Except.ok ⟨groupW.images.filterMap (matchMeta reportW), [groupW.id]⟩ ∧
    (∀ g' ∈ [groupW2, groupW], g'.id ≠ groupW.id →
      g' ∈ applyGroupRemovals [groupW2, groupW] [groupW.id]) :=
  c9_single_group_consumed [groupW2, groupW] reportW groupW (by decide) (by decide)

end Lmis
